import Mathlib

/-!
Verification of the volume-s3 per-node controller (package `controller`).

The definitions below are a shallow embedding of the Go source:
pure string manipulation (path cleaning, label parsing, hostname
sanitization, command construction) is translated to executable Lean
functions on `String` / `List Char`; the effectful parts of the
reconcile loop are modelled by explicit state records (`World`,
`Metrics`, `FS`) with the runtime's responses as oracle parameters.
-/

set_option maxRecDepth 4096

/-! ## Generic character-list utilities (Go `strings` / `path/filepath`) -/

/-- Whitespace recognized by the embedding of `strings.TrimSpace` and of the
`\s+` split in `parseArgs` (ASCII whitespace, as relevant here). -/
def goIsSpace (c : Char) : Bool :=
  c = ' ' ∨ c = '\t' ∨ c = '\n' ∨ c = '\x0b' ∨ c = '\x0c' ∨ c = '\r'

/-- Drop elements satisfying `p` from both ends of a list
(the semantics of Go `strings.Trim` / `strings.TrimSpace`). -/
def trimBy (p : Char → Bool) (l : List Char) : List Char :=
  ((l.dropWhile p).reverse.dropWhile p).reverse

/-- Embedding of Go `strings.TrimSpace`. -/
def goTrimSpace (s : String) : String :=
  String.mk (trimBy goIsSpace s.data)

/-- Split a character list at every element satisfying `p`, keeping empty
segments (the semantics of Go `strings.Split` for one-character separators). -/
def splitOnP (p : Char → Bool) : List Char → List (List Char)
  | [] => [[]]
  | c :: rest =>
    if p c then [] :: splitOnP p rest
    else
      match splitOnP p rest with
      | [] => [[c]]
      | s :: ss => (c :: s) :: ss

/-- Split on `/` (used by the path-cleaning model). -/
def splitSlash (l : List Char) : List (List Char) :=
  splitOnP (fun c => c = '/') l

/-- Join path segments with `/` separators (the output phase of
`filepath.Clean`). -/
def joinSegs : List (List Char) → List Char
  | [] => []
  | [s] => s
  | s :: rest => s ++ '/' :: joinSegs rest

/-! ## `filepath.Clean` and `filepath.Join` (Unix rules)

`cleanLoop` is the segment-stack form of the Go `path/filepath` cleaning
algorithm: empty and `.` segments are dropped; `..` pops a poppable segment,
is discarded at the root when the path is rooted, and is kept when the path
is relative and nothing can be popped.  `acc` holds already-emitted segments
in reverse order, so the Go condition `out.w > dotdot` (a poppable segment
exists) is exactly head of `acc` present and not `..`. -/

def cleanLoop (rooted : Bool) (acc : List (List Char)) : List (List Char) → List (List Char)
  | [] => acc.reverse
  | s :: rest =>
    if s = [] ∨ s = ['.'] then cleanLoop rooted acc rest
    else if s = ['.', '.'] then
      match acc with
      | [] => if rooted then cleanLoop rooted [] rest else cleanLoop rooted [s] rest
      | t :: acc2 =>
        if t = ['.', '.'] then cleanLoop rooted (s :: acc) rest
        else cleanLoop rooted acc2 rest
    else cleanLoop rooted (s :: acc) rest

/-- Whether a path begins with `/`. -/
def isRooted : List Char → Bool
  | [] => false
  | c :: _ => c = '/'

/-- Embedding of Go `filepath.Clean` on character lists (Unix separator). -/
def goCleanList (l : List Char) : List Char :=
  if l = [] then ['.']
  else
    let segs := cleanLoop (isRooted l) [] (splitSlash l)
    let r := if isRooted l then '/' :: joinSegs segs else joinSegs segs
    if r = [] then ['.'] else r

/-- Embedding of Go `filepath.Clean`. -/
def goClean (s : String) : String :=
  String.mk (goCleanList s.data)

/-- Embedding of Go `filepath.Join` for two elements: empty elements are
skipped and the `/`-joined remainder is cleaned. -/
def goJoin (a b : String) : String :=
  if a ≠ "" then goClean (a ++ "/" ++ b)
  else if b ≠ "" then goClean b
  else ""

/-- The local directory created by `provisionClaims` for a claim with
raw prefix value `p`:
`filepath.Join(c.cfg.Mountpoint, filepath.Clean("/"+s.prefix))`. -/
def claimDir (mountpoint p : String) : String :=
  goJoin mountpoint (goClean ("/" ++ p))

-- Behavioural checks against `path/filepath` test vectors.
example : goClean "" = "." := by decide
example : goClean "abc//def//ghi" = "abc/def/ghi" := by decide
example : goClean "abc/.." = "." := by decide
example : goClean "/abc/.." = "/" := by decide
example : goClean "/../abc" = "/abc" := by decide
example : goClean "a/../../b" = "../b" := by decide
example : goClean "/" = "/" := by decide
example : goClean "./" = "." := by decide
example : goJoin "a" "" = "a" := by decide
example : goJoin "" "" = "" := by decide
example : goJoin "/mnt/s3" "/etc/passwd" = "/mnt/s3/etc/passwd" := by decide
example : claimDir "/mnt/s3" "../../etc" = "/mnt/s3/etc" := by decide
example : claimDir "/mnt/s3" "a//b/../c" = "/mnt/s3/a/c" := by decide
example : claimDir "/mnt/s3" "" = "/mnt/s3" := by decide

/-! ## Lemmas about splitting and joining (towards claim C1) -/

/-- A path segment that the cleaning loop always emits unchanged. -/
def plainSeg (s : List Char) : Prop :=
  s ≠ [] ∧ s ≠ ['.'] ∧ s ≠ ['.', '.']

/-- A segment containing no separator. -/
def slashFree (s : List Char) : Prop :=
  ∀ c ∈ s, c ≠ '/'

theorem splitOnP_ne_nil (p : Char → Bool) (l : List Char) : splitOnP p l ≠ [] := by
  induction l with
  | nil => simp [splitOnP]
  | cons c rest ih =>
    by_cases hc : p c
    · simp [splitOnP, hc]
    · simp only [splitOnP, hc]
      cases h : splitOnP p rest with
      | nil => exact absurd h ih
      | cons s ss => simp

theorem mem_splitOnP (p : Char → Bool) (l : List Char) (s : List Char)
    (hs : s ∈ splitOnP p l) : ∀ c ∈ s, p c = false := by
  induction l generalizing s with
  | nil =>
    simp [splitOnP] at hs
    simp [hs]
  | cons c rest ih =>
    by_cases hc : p c
    · simp [splitOnP, hc] at hs
      rcases hs with h | h
      · simp [h]
      · exact ih s h
    · simp only [splitOnP, hc, if_neg, Bool.false_eq_true] at hs
      cases h : splitOnP p rest with
      | nil => exact absurd h (splitOnP_ne_nil p rest)
      | cons s0 ss =>
        rw [h] at hs
        rcases List.mem_cons.mp hs with h1 | h1
        · subst h1
          intro d hd
          rcases List.mem_cons.mp hd with h2 | h2
          · subst h2
            simpa using hc
          · exact ih s0 (h ▸ List.mem_cons_self s0 ss) d h2
        · exact ih s (h ▸ List.mem_cons_of_mem s0 h1)

theorem splitOnP_append (p : Char → Bool) (a b : List Char) (c : Char) (hc : p c = true) :
    splitOnP p (a ++ c :: b) = splitOnP p a ++ splitOnP p b := by
  induction a with
  | nil => simp [splitOnP, hc]
  | cons x a' ih =>
    by_cases hx : p x
    · simp [splitOnP, hx, ih]
    · cases h : splitOnP p a' with
      | nil => exact absurd h (splitOnP_ne_nil p a')
      | cons s ss => simp [splitOnP, hx, ih, h]

theorem splitOnP_nosep (p : Char → Bool) (l : List Char) (h : ∀ c ∈ l, p c = false) :
    splitOnP p l = [l] := by
  induction l with
  | nil => simp [splitOnP]
  | cons c rest ih =>
    have hc : p c = false := h c (List.mem_cons_self c rest)
    have hrest := ih (fun d hd => h d (List.mem_cons_of_mem c hd))
    simp [splitOnP, hc, hrest]

theorem joinSegs_cons_cons (s t : List Char) (rest : List (List Char)) :
    joinSegs (s :: t :: rest) = s ++ '/' :: joinSegs (t :: rest) := rfl

theorem joinSegs_append (s1 s2 : List (List Char)) (h1 : s1 ≠ []) (h2 : s2 ≠ []) :
    joinSegs (s1 ++ s2) = joinSegs s1 ++ '/' :: joinSegs s2 := by
  induction s1 with
  | nil => exact absurd rfl h1
  | cons x rest ih =>
    cases rest with
    | nil =>
      cases s2 with
      | nil => exact absurd rfl h2
      | cons y ys => simp [joinSegs, joinSegs_cons_cons]
    | cons x2 rest2 =>
      have hrec := ih (by simp)
      simp only [List.cons_append] at hrec ⊢
      rw [joinSegs_cons_cons x x2 (rest2 ++ s2), hrec, joinSegs_cons_cons x x2 rest2]
      simp

theorem splitSlash_joinSegs (segs : List (List Char)) (hne : segs ≠ [])
    (hsf : ∀ s ∈ segs, slashFree s) : splitSlash (joinSegs segs) = segs := by
  induction segs with
  | nil => exact absurd rfl hne
  | cons s rest ih =>
    cases rest with
    | nil =>
      have hs : ∀ c ∈ s, (decide (c = '/')) = false := by
        intro c hc
        simpa using hsf s (by simp) c hc
      simp [joinSegs, splitSlash, splitOnP_nosep _ s hs]
    | cons s2 rest2 =>
      have hjoin : joinSegs (s :: s2 :: rest2) = s ++ '/' :: joinSegs (s2 :: rest2) := by
        simp [joinSegs]
      have hs : ∀ c ∈ s, (decide (c = '/')) = false := by
        intro c hc
        simpa using hsf s (by simp) c hc
      rw [hjoin]
      unfold splitSlash
      rw [splitOnP_append _ _ _ '/' (by simp), splitOnP_nosep _ s hs]
      have := ih (by simp) (fun t ht => hsf t (List.mem_cons_of_mem s ht))
      unfold splitSlash at this
      rw [this]
      simp

theorem cleanLoop_plain (rooted : Bool) (acc segs : List (List Char))
    (h : ∀ s ∈ segs, plainSeg s) :
    cleanLoop rooted acc segs = acc.reverse ++ segs := by
  induction segs generalizing acc with
  | nil => simp [cleanLoop]
  | cons s rest ih =>
    obtain ⟨hn, hd, hdd⟩ := h s (List.mem_cons_self s rest)
    have hrest := fun t ht => h t (List.mem_cons_of_mem s ht)
    have hcond : ¬(s = [] ∨ s = ['.']) := by simp [hn, hd]
    have step : cleanLoop rooted acc (s :: rest) = cleanLoop rooted (s :: acc) rest := by
      simp [cleanLoop, hcond, hdd]
    rw [step, ih (s :: acc) hrest]
    simp

theorem cleanLoop_append_plain (rooted : Bool) (l1 l2 : List (List Char)) (acc : List (List Char))
    (h : ∀ s ∈ l1, plainSeg s) :
    cleanLoop rooted acc (l1 ++ l2) = cleanLoop rooted (l1.reverse ++ acc) l2 := by
  induction l1 generalizing acc with
  | nil => simp
  | cons s rest ih =>
    obtain ⟨hn, hd, hdd⟩ := h s (List.mem_cons_self s rest)
    have hrest := fun t ht => h t (List.mem_cons_of_mem s ht)
    have hcond : ¬(s = [] ∨ s = ['.']) := by simp [hn, hd]
    have step : cleanLoop rooted acc ((s :: rest) ++ l2) = cleanLoop rooted (s :: acc) (rest ++ l2) := by
      simp [cleanLoop, hcond, hdd]
    rw [step, ih (s :: acc) hrest]
    congr 1
    simp

theorem cleanLoop_rooted_plain (segs : List (List Char)) (acc : List (List Char))
    (hacc : ∀ s ∈ acc, plainSeg s ∧ slashFree s)
    (hsegs : ∀ s ∈ segs, slashFree s) :
    ∀ s ∈ cleanLoop true acc segs, plainSeg s ∧ slashFree s := by
  induction segs generalizing acc with
  | nil =>
    intro s hs
    simp only [cleanLoop, List.mem_reverse] at hs
    exact hacc s hs
  | cons s rest ih =>
    have hrest := fun t ht => hsegs t (List.mem_cons_of_mem s ht)
    by_cases h1 : s = [] ∨ s = ['.']
    · intro t ht
      simp only [cleanLoop, if_pos h1] at ht
      exact ih acc hacc hrest t ht
    · by_cases h2 : s = ['.', '.']
      · cases acc with
        | nil =>
          intro t ht
          simp only [cleanLoop, if_neg h1, if_pos h2, if_pos rfl] at ht
          exact ih [] (by simp) hrest t ht
        | cons a acc2 =>
          have ha := hacc a (List.mem_cons_self a acc2)
          have hane : a ≠ ['.', '.'] := ha.1.2.2
          intro t ht
          simp only [cleanLoop, if_neg h1, if_pos h2, if_neg hane] at ht
          exact ih acc2 (fun u hu => hacc u (List.mem_cons_of_mem a hu)) hrest t ht
      · intro t ht
        simp only [cleanLoop, if_neg h1, if_neg h2] at ht
        refine ih (s :: acc) ?_ hrest t ht
        intro u hu
        rcases List.mem_cons.mp hu with h3 | h3
        · subst h3
          exact ⟨⟨fun h => h1 (Or.inl h), fun h => h1 (Or.inr h), h2⟩,
            hsegs u (by simp)⟩
        · exact hacc u h3

theorem splitSlash_cons_slash (l : List Char) :
    splitSlash ('/' :: l) = [] :: splitSlash l := by
  simp [splitSlash, splitOnP]

theorem cleanLoop_cons_nil (rooted : Bool) (acc rest : List (List Char)) :
    cleanLoop rooted acc ([] :: rest) = cleanLoop rooted acc rest := by
  simp [cleanLoop]

theorem goCleanList_rooted (l : List Char) (hne : l ≠ []) (hr : isRooted l = true) :
    goCleanList l = '/' :: joinSegs (cleanLoop true [] (splitSlash l)) := by
  simp [goCleanList, hne, hr]

theorem clean_rooted_decomp (mp : List Char) (hclean : goCleanList mp = mp)
    (hr : isRooted mp = true) :
    ∃ segs, mp = '/' :: joinSegs segs ∧ ∀ s ∈ segs, plainSeg s ∧ slashFree s := by
  have hne : mp ≠ [] := by
    intro h
    rw [h] at hr
    simp [isRooted] at hr
  refine ⟨cleanLoop true [] (splitSlash mp), ?_, ?_⟩
  · conv_lhs => rw [← hclean]
    exact goCleanList_rooted mp hne hr
  · apply cleanLoop_rooted_plain
    · simp
    · intro s hs c hc
      have := mem_splitOnP _ _ s hs c hc
      simpa using this

theorem claimDirList_under (mp p : List Char)
    (hclean : goCleanList mp = mp) (hr : isRooted mp = true) (hroot : mp ≠ ['/']) :
    goCleanList (mp ++ '/' :: goCleanList ('/' :: p)) = mp ∨
    ∃ rest, goCleanList (mp ++ '/' :: goCleanList ('/' :: p)) = mp ++ '/' :: rest := by
  obtain ⟨segs1, e1, h1⟩ := clean_rooted_decomp mp hclean hr
  have hs1ne : segs1 ≠ [] := by
    intro h
    rw [h] at e1
    exact hroot (by simpa [joinSegs] using e1)
  have hq : goCleanList ('/' :: p) = '/' :: joinSegs (cleanLoop true [] (splitSlash ('/' :: p))) :=
    goCleanList_rooted _ (by simp) (by simp [isRooted])
  set segs2 := cleanLoop true [] (splitSlash ('/' :: p)) with hsegs2
  have h2 : ∀ s ∈ segs2, plainSeg s ∧ slashFree s := by
    rw [hsegs2]
    apply cleanLoop_rooted_plain
    · simp
    · intro s hs c hc
      have := mem_splitOnP _ _ s hs c hc
      simpa using this
  have hform : mp ++ '/' :: goCleanList ('/' :: p)
      = '/' :: (joinSegs segs1 ++ '/' :: ('/' :: joinSegs segs2)) := by
    rw [hq, e1]
    simp
  have hbigne : mp ++ '/' :: goCleanList ('/' :: p) ≠ [] := by
    rw [hform]
    simp
  have hbigr : isRooted (mp ++ '/' :: goCleanList ('/' :: p)) = true := by
    rw [hform]
    simp [isRooted]
  rw [goCleanList_rooted _ hbigne hbigr, hform]
  have hsplit : splitSlash ('/' :: (joinSegs segs1 ++ '/' :: ('/' :: joinSegs segs2)))
      = [] :: (segs1 ++ [] :: splitSlash (joinSegs segs2)) := by
    rw [splitSlash_cons_slash]
    congr 1
    unfold splitSlash
    rw [splitOnP_append _ _ _ '/' (by simp)]
    have e2 : splitOnP (fun c => decide (c = '/')) (joinSegs segs1) = segs1 := by
      have := splitSlash_joinSegs segs1 hs1ne (fun s hs => (h1 s hs).2)
      simpa [splitSlash] using this
    rw [e2]
    simp [splitOnP]
  rw [hsplit, cleanLoop_cons_nil,
    cleanLoop_append_plain true segs1 _ [] (fun s hs => (h1 s hs).1),
    List.append_nil, cleanLoop_cons_nil]
  by_cases hs2 : segs2 = []
  · left
    rw [hs2]
    have : splitSlash (joinSegs ([] : List (List Char))) = [[]] := by
      simp [joinSegs, splitSlash, splitOnP]
    rw [this, cleanLoop_cons_nil]
    simp [cleanLoop, e1]
  · right
    refine ⟨joinSegs segs2, ?_⟩
    rw [splitSlash_joinSegs segs2 hs2 (fun s hs => (h2 s hs).2),
      cleanLoop_plain true _ segs2 (fun s hs => (h2 s hs).1),
      List.reverse_reverse,
      joinSegs_append segs1 segs2 hs1ne hs2, e1]
    simp

theorem strData_append (a b : String) : (a ++ b).data = a.data ++ b.data :=
  String.data_append a b

theorem goClean_data (s : String) : (goClean s).data = goCleanList s.data := rfl

theorem claimDir_expand (mp p : String) (hne : mp ≠ "") :
    claimDir mp p = goClean (mp ++ "/" ++ goClean ("/" ++ p)) := by
  simp [claimDir, goJoin, hne]

/-- C1: for every claim prefix string `p` (including strings containing `..`,
leading slashes, or empty segments), the directory created by the claim
provisioner, `filepath.Join(mountpoint, filepath.Clean("/"+p))`, is lexically
under the mountpoint: for a cleaned absolute mountpoint other than the
filesystem root, it equals the mountpoint or extends `mountpoint ++ "/"`,
so no claim escapes the mountpoint. -/
theorem C1_claim_dir_containment (mp p : String)
    (hclean : goClean mp = mp) (habs : isRooted mp.data = true) (hroot : mp ≠ "/") :
    claimDir mp p = mp ∨
    ∃ rest : List Char, (claimDir mp p).data = (mp ++ "/").data ++ rest := by
  have hnemp : mp ≠ "" := by
    intro h
    subst h
    simp [isRooted] at habs
  have hcleanL : goCleanList mp.data = mp.data := congrArg String.data hclean
  have hrootL : mp.data ≠ ['/'] := by
    intro h
    apply hroot
    apply String.ext
    rw [h]
  have hslash : ("/" : String).data = ['/'] := rfl
  have hdata : (claimDir mp p).data
      = goCleanList (mp.data ++ '/' :: goCleanList ('/' :: p.data)) := by
    rw [claimDir_expand mp p hnemp, goClean_data]
    congr 1
    rw [strData_append, strData_append, goClean_data, strData_append, hslash]
    simp
  rcases claimDirList_under mp.data p.data hcleanL habs hrootL with h | ⟨rest, h⟩
  · left
    exact String.ext (hdata.trans h)
  · right
    refine ⟨rest, ?_⟩
    rw [hdata, h, strData_append]
    simp

/-- C1 witness: a concrete traversal-style prefix stays under `/mnt/s3`. -/
theorem C1_claim_dir_containment_witness :
    (goClean "/mnt/s3" = "/mnt/s3" ∧ isRooted "/mnt/s3".data = true ∧ "/mnt/s3" ≠ "/") ∧
    (claimDir "/mnt/s3" "../../etc/passwd" = "/mnt/s3" ∨
      ∃ rest : List Char,
        (claimDir "/mnt/s3" "../../etc/passwd").data = ("/mnt/s3" ++ "/").data ++ rest) :=
  ⟨⟨by decide, by decide, by decide⟩,
    C1_claim_dir_containment "/mnt/s3" "../../etc/passwd" (by decide) (by decide) (by decide)⟩

/-! ## Hostname sanitization (`sanitizeHostname`, claims C8 and C5) -/

/-- An ASCII letter or digit (the ranges tested in `sanitizeHostname`). -/
def isAlnum (c : Char) : Bool :=
  ('a' ≤ c ∧ c ≤ 'z') ∨ ('A' ≤ c ∧ c ≤ 'Z') ∨ ('0' ≤ c ∧ c ≤ '9')

/-- Characters kept unchanged by `sanitizeHostname`. -/
def isAlnumHyphen (c : Char) : Bool :=
  isAlnum c ∨ c = '-'

/-- The per-character replacement of `sanitizeHostname`. -/
def sanitizeMap (c : Char) : Char :=
  if isAlnumHyphen c then c else '-'

/-- Embedding of `sanitizeHostname`, with the OS hostname as an explicit
input (the Go function reads it from `os.Hostname()`; an empty result falls
back to "unknown"). Every character outside `[A-Za-z0-9-]` is replaced by
`-`, then leading and trailing hyphens are trimmed. -/
def sanitizeHostname (hn : String) : String :=
  let hn2 := if hn = "" then "unknown" else hn
  String.mk (trimBy (fun c => c = '-') (hn2.data.map sanitizeMap))

example : sanitizeHostname "node-1.example.com" = "node-1-example-com" := by decide
example : sanitizeHostname "" = "unknown" := by decide

theorem head?_dropWhile_false (p : Char → Bool) (l : List Char) :
    ∀ c, (l.dropWhile p).head? = some c → p c = false := by
  induction l with
  | nil => simp
  | cons x rest ih =>
    by_cases hx : p x
    · simpa [List.dropWhile, hx] using ih
    · intro c hc
      simp [List.dropWhile, hx] at hc
      subst hc
      simpa using hx

theorem getLast?_dropWhile_ne (p : Char → Bool) (l : List Char)
    (h : l.dropWhile p ≠ []) : (l.dropWhile p).getLast? = l.getLast? := by
  induction l with
  | nil => simp [List.dropWhile] at h
  | cons x rest ih =>
    by_cases hx : p x
    · have hdw : (x :: rest).dropWhile p = rest.dropWhile p := by
        simp [List.dropWhile, hx]
      rw [hdw] at h ⊢
      have hrest : rest ≠ [] := by
        intro hr
        rw [hr] at h
        simp [List.dropWhile] at h
      rw [ih h]
      cases rest with
      | nil => exact absurd rfl hrest
      | cons y ys => simp [List.getLast?_cons_cons]
    · simp [List.dropWhile, hx]

theorem trimBy_getLast (p : Char → Bool) (l : List Char) :
    ∀ c, (trimBy p l).getLast? = some c → p c = false := by
  intro c hc
  unfold trimBy at hc
  rw [List.getLast?_reverse] at hc
  exact head?_dropWhile_false p _ c hc

theorem trimBy_head (p : Char → Bool) (l : List Char) :
    ∀ c, (trimBy p l).head? = some c → p c = false := by
  intro c hc
  unfold trimBy at hc
  rw [List.head?_reverse] at hc
  by_cases hA : (l.dropWhile p).reverse.dropWhile p = []
  · rw [hA] at hc
    simp at hc
  · rw [getLast?_dropWhile_ne p _ hA, List.getLast?_reverse] at hc
    exact head?_dropWhile_false p _ c hc

theorem trimBy_subset (p : Char → Bool) (l : List Char) : trimBy p l ⊆ l := by
  intro c hc
  unfold trimBy at hc
  rw [List.mem_reverse] at hc
  have h1 := (List.dropWhile_sublist (l := (l.dropWhile p).reverse) p).subset hc
  rw [List.mem_reverse] at h1
  exact (List.dropWhile_sublist p).subset h1

theorem trimBy_eq_nil_forall (p : Char → Bool) (l : List Char)
    (h : trimBy p l = []) : ∀ c ∈ l, p c = true := by
  unfold trimBy at h
  rw [List.reverse_eq_nil_iff, List.dropWhile_eq_nil_iff] at h
  intro c hc
  rcases List.mem_append.mp
      ((List.takeWhile_append_dropWhile p l) ▸ hc) with h1 | h1
  · exact List.mem_takeWhile_imp h1
  · exact h c (List.mem_reverse.mpr h1)

/-- C8 counterexample: for the hostname `"."` the sanitized result is the
empty string, so it does not match the non-empty pattern `[A-Za-z0-9-]+`
asserted by the claim. -/
theorem C8_sanitize_counterexample :
    sanitizeHostname "." = "" ∧ (sanitizeHostname ".").data = [] := by
  constructor
  · decide
  · decide

/-- C8 (amended): `sanitizeHostname` always yields a (possibly empty) string
over the alphabet `[A-Za-z0-9-]` with no leading or trailing hyphen, obtained
by replacing every character outside the alphabet with `-` and trimming
hyphens from both ends; the result is non-empty whenever the hostname
contains at least one ASCII alphanumeric character. -/
theorem C8_sanitize_shape (hn : String) :
    (∀ c ∈ (sanitizeHostname hn).data, isAlnumHyphen c = true) ∧
    (∀ c, (sanitizeHostname hn).data.head? = some c → c ≠ '-') ∧
    (∀ c, (sanitizeHostname hn).data.getLast? = some c → c ≠ '-') ∧
    ((∃ c ∈ hn.data, isAlnum c = true) → sanitizeHostname hn ≠ "") := by
  refine ⟨?_, ?_, ?_, ?_⟩
  · intro c hc
    have h1 := trimBy_subset (fun c => c = '-') _ hc
    rcases List.mem_map.mp h1 with ⟨a, _, ha⟩
    subst ha
    unfold sanitizeMap
    by_cases h2 : isAlnumHyphen a = true
    · rw [if_pos h2]
      exact h2
    · rw [if_neg h2]
      decide
  · intro c hc
    have := trimBy_head (fun c => c = '-') _ c hc
    simpa using this
  · intro c hc
    have := trimBy_getLast (fun c => c = '-') _ c hc
    simpa using this
  · rintro ⟨c, hcm, hca⟩ hemp
    have hne : hn ≠ "" := by
      intro h0
      rw [h0] at hcm
      simp at hcm
    have hdata : (sanitizeHostname hn).data
        = trimBy (fun c => c = '-') (hn.data.map sanitizeMap) := by
      simp [sanitizeHostname, hne]
    have hnil : trimBy (fun c => c = '-') (hn.data.map sanitizeMap) = [] := by
      rw [← hdata, hemp]
    have hmem : sanitizeMap c ∈ hn.data.map sanitizeMap :=
      List.mem_map.mpr ⟨c, hcm, rfl⟩
    have := trimBy_eq_nil_forall _ _ hnil (sanitizeMap c) hmem
    have hkeep : sanitizeMap c = c := by
      unfold sanitizeMap
      simp [isAlnumHyphen, hca]
    rw [hkeep] at this
    have hOK : (c = '-') = False := by
      by_contra h
      simp at h
      subst h
      simp [isAlnum] at hca
    simp [hOK] at this

/-- C8 witness: a hostname containing a letter sanitizes to a non-empty name. -/
theorem C8_sanitize_shape_witness :
    (∃ c ∈ ("node.1" : String).data, isAlnum c = true) ∧ sanitizeHostname "node.1" ≠ "" :=
  ⟨by decide, (C8_sanitize_shape "node.1").2.2.2 (by decide)⟩

/-! ## Controller configuration (the fields consumed by the embedded code) -/

structure Config where
  s3Provider : String
  s3Endpoint : String
  rcloneRemote : String
  rcloneExtraArgs : String
  mountpoint : String
  helperImage : String
  readyFile : String
  readOnly : Bool
  enableProxy : Bool
  localLBEnabled : Bool
  proxyPort : String
  proxyNetwork : String
  labelPrefix : String
  labelStrict : Bool
  preset : String
deriving DecidableEq

/-- A baseline configuration used by concrete counterexamples. -/
def cfgBase : Config :=
  { s3Provider := "", s3Endpoint := "http://s3.local:9000", rcloneRemote := "S3:bucket",
    rcloneExtraArgs := "", mountpoint := "/mnt/s3", helperImage := "", readyFile := ".ready",
    readOnly := false, enableProxy := false, localLBEnabled := false, proxyPort := "",
    proxyNetwork := "", labelPrefix := "", labelStrict := false, preset := "" }

/-! ## Endpoint rewriting (`localAlias`, `resolveEndpointForMounter`,
`buildRcloneEnv`; claim C5) -/

/-- Embedding of `localAlias`: the node-local HAProxy alias. -/
def localAlias (host : String) : String :=
  "volume-s3-lb-" ++ sanitizeHostname host

/-- Embedding of `resolveEndpointForMounter`. -/
def resolveEndpointForMounter (cfg : Config) (host : String) : String :=
  if cfg.enableProxy ∧ cfg.localLBEnabled ∧ goTrimSpace cfg.proxyNetwork ≠ "" then
    "http://" ++ localAlias host ++ ":" ++ goTrimSpace cfg.proxyPort
  else cfg.s3Endpoint

/-- Embedding of `buildRcloneEnv`; the resolved credentials (env overriding
file contents) and optional session token are passed in as inputs. -/
def buildRcloneEnv (cfg : Config) (host access secret token : String) : List String :=
  ["RCLONE_CONFIG_S3_TYPE=s3",
   "RCLONE_CONFIG_S3_ACCESS_KEY_ID=" ++ access,
   "RCLONE_CONFIG_S3_SECRET_ACCESS_KEY=" ++ secret,
   "RCLONE_CONFIG_S3_ENDPOINT=" ++ resolveEndpointForMounter cfg host]
  ++ (if token ≠ "" then ["RCLONE_CONFIG_S3_SESSION_TOKEN=" ++ token] else [])
  ++ (if goTrimSpace cfg.s3Provider ≠ "" then ["RCLONE_CONFIG_S3_PROVIDER=" ++ cfg.s3Provider] else [])

/-- Proxy-enabled configuration whose proxy network is whitespace-only. -/
def cfgProxyBlankNetwork : Config :=
  { cfgBase with
    enableProxy := true
    localLBEnabled := true
    proxyNetwork := " "
    proxyPort := "8081" }

/-- Proxy-enabled configuration whose proxy port carries whitespace. -/
def cfgProxyPaddedPort : Config :=
  { cfgBase with
    enableProxy := true
    localLBEnabled := true
    proxyNetwork := "mesh"
    proxyPort := " 8081 " }

/-- C5 counterexample: with `enable_proxy` and `local_lb_enabled` set and the
non-empty (whitespace-only) network `" "`, the code does NOT rewrite the
endpoint, contrary to the claim's condition "proxy_network is non-empty";
and with a padded port `" 8081 "` the rewritten endpoint uses the trimmed
port, not the configured `proxy_port` verbatim. -/
theorem C5_endpoint_counterexample :
    (cfgProxyBlankNetwork.proxyNetwork ≠ "" ∧
      resolveEndpointForMounter cfgProxyBlankNetwork "node1" = "http://s3.local:9000" ∧
      resolveEndpointForMounter cfgProxyBlankNetwork "node1" ≠ "http://volume-s3-lb-node1:8081") ∧
    (resolveEndpointForMounter cfgProxyPaddedPort "node1" = "http://volume-s3-lb-node1:8081" ∧
      resolveEndpointForMounter cfgProxyPaddedPort "node1" ≠ "http://volume-s3-lb-node1: 8081 ") := by
  refine ⟨⟨?_, ?_, ?_⟩, ?_, ?_⟩ <;> decide

theorem strLiteral_http : ("http://" ++ "volume-s3-lb-" : String) = "http://volume-s3-lb-" := by
  decide

theorem resolveEndpoint_rewrite (cfg : Config) (host : String)
    (h : cfg.enableProxy ∧ cfg.localLBEnabled ∧ goTrimSpace cfg.proxyNetwork ≠ "") :
    resolveEndpointForMounter cfg host
      = "http://volume-s3-lb-" ++ sanitizeHostname host ++ ":" ++ goTrimSpace cfg.proxyPort := by
  rw [resolveEndpointForMounter, if_pos h, localAlias, ← String.append_assoc, strLiteral_http]

/-- C5 (amended): the mounter environment entry `RCLONE_CONFIG_S3_ENDPOINT`
equals `http://volume-s3-lb-<sanitize(host)>:<trimmed proxy_port>` exactly
when `enable_proxy` and `local_lb_enabled` hold and `proxy_network` is
non-empty after trimming whitespace; in every other configuration it equals
the configured `s3_endpoint` unchanged. -/
theorem C5_endpoint_entry (cfg : Config) (host access secret token : String) :
    (cfg.enableProxy ∧ cfg.localLBEnabled ∧ goTrimSpace cfg.proxyNetwork ≠ "" →
      ("RCLONE_CONFIG_S3_ENDPOINT="
          ++ ("http://volume-s3-lb-" ++ sanitizeHostname host ++ ":" ++ goTrimSpace cfg.proxyPort))
        ∈ buildRcloneEnv cfg host access secret token) ∧
    (¬(cfg.enableProxy ∧ cfg.localLBEnabled ∧ goTrimSpace cfg.proxyNetwork ≠ "") →
      ("RCLONE_CONFIG_S3_ENDPOINT=" ++ cfg.s3Endpoint)
        ∈ buildRcloneEnv cfg host access secret token) := by
  constructor
  · intro h
    rw [← resolveEndpoint_rewrite cfg host h]
    simp [buildRcloneEnv]
  · intro h
    have : resolveEndpointForMounter cfg host = cfg.s3Endpoint := by
      rw [resolveEndpointForMounter, if_neg h]
    rw [← this]
    simp [buildRcloneEnv]

/-- C5 witness: both branches of the amended claim at concrete configurations. -/
theorem C5_endpoint_entry_witness :
    (cfgProxyPaddedPort.enableProxy ∧ cfgProxyPaddedPort.localLBEnabled ∧
        goTrimSpace cfgProxyPaddedPort.proxyNetwork ≠ "") ∧
    ("RCLONE_CONFIG_S3_ENDPOINT="
        ++ ("http://volume-s3-lb-" ++ sanitizeHostname "node1" ++ ":"
            ++ goTrimSpace cfgProxyPaddedPort.proxyPort))
      ∈ buildRcloneEnv cfgProxyPaddedPort "node1" "ak" "sk" "" ∧
    ("RCLONE_CONFIG_S3_ENDPOINT=" ++ cfgBase.s3Endpoint)
      ∈ buildRcloneEnv cfgBase "node1" "ak" "sk" "" :=
  ⟨by decide,
    (C5_endpoint_entry cfgProxyPaddedPort "node1" "ak" "sk" "").1 (by decide),
    (C5_endpoint_entry cfgBase "node1" "ak" "sk" "").2 (by decide)⟩

/-! ## Mounter command construction (`ensureMounter`, `buildPresetArgs`,
`parseArgs`; claim C9) -/

/-- Embedding of Go `strings.ToLower` (ASCII range, which covers every
comparison made against the lowercase preset names). -/
def goToLower (s : String) : String :=
  String.mk (s.data.map Char.toLower)

/-- Embedding of `buildPresetArgs`: the preset is trimmed and lowercased,
then matched against the preset table. -/
def buildPresetArgs (cfg : Config) : List String :=
  let p := goToLower (goTrimSpace cfg.preset)
  if p = "aws" then ["--s3-region=us-east-1"]
  else if p = "minio" ∨ p = "ceph" then ["--s3-force-path-style=true"]
  else if p = "wasabi" then ["--s3-region=us-east-1", "--s3-force-path-style=true"]
  else if p = "aliyun" then ["--s3-provider=Alibaba", "--s3-force-path-style=true"]
  else []

/-- Embedding of `parseArgs`: trim, split on whitespace runs (`\s+`),
drop empty fields. -/
def parseArgs (s : String) : List String :=
  ((splitOnP goIsSpace (trimBy goIsSpace s.data)).filter (fun t => t ≠ [])).map String.mk

example : parseArgs "  --fast-list   --transfers=8 " = ["--fast-list", "--transfers=8"] := by
  decide
example : parseArgs "" = [] := by decide

/-- Embedding of the `cmd` slice built in `ensureMounter`: base command,
then preset args, then `--read-only` when configured, then the
whitespace-split extra args (only when the extra-args string is non-blank). -/
def mounterCmd (cfg : Config) : List String :=
  ["mount", cfg.rcloneRemote, cfg.mountpoint, "--allow-other",
   "--vfs-cache-mode=writes", "--dir-cache-time=12h"]
  ++ buildPresetArgs cfg
  ++ (if cfg.readOnly then ["--read-only"] else [])
  ++ (if goTrimSpace cfg.rcloneExtraArgs ≠ "" then parseArgs cfg.rcloneExtraArgs else [])

/-- The preset table exactly as worded by the claim: the configured preset
string is compared verbatim against the five preset names. -/
def presetArgsClaimLiteral (preset : String) : List String :=
  if preset = "aws" then ["--s3-region=us-east-1"]
  else if preset = "minio" ∨ preset = "ceph" then ["--s3-force-path-style=true"]
  else if preset = "wasabi" then ["--s3-region=us-east-1", "--s3-force-path-style=true"]
  else if preset = "aliyun" then ["--s3-provider=Alibaba", "--s3-force-path-style=true"]
  else []

/-- Configuration with an upper-case preset name. -/
def cfgPresetUpper : Config := { cfgBase with preset := "AWS" }

/-- C9 counterexample: for `preset="AWS"` the code appends the aws preset
argument (the preset is trimmed and lowercased before the table lookup),
while the claim's verbatim table classifies `"AWS"` as "any other preset"
and predicts no preset argument. -/
theorem C9_mounter_cmd_counterexample :
    mounterCmd cfgPresetUpper
      = ["mount", "S3:bucket", "/mnt/s3", "--allow-other", "--vfs-cache-mode=writes",
         "--dir-cache-time=12h", "--s3-region=us-east-1"] ∧
    presetArgsClaimLiteral "AWS" = [] ∧
    mounterCmd cfgPresetUpper
      ≠ ["mount", "S3:bucket", "/mnt/s3", "--allow-other", "--vfs-cache-mode=writes",
         "--dir-cache-time=12h"] ++ presetArgsClaimLiteral "AWS" := by
  refine ⟨?_, ?_, ?_⟩ <;> decide

/-- C9 (amended): the mounter command is exactly the base invocation
`mount <remote> <mountpoint> --allow-other --vfs-cache-mode=writes
--dir-cache-time=12h`, followed by the preset arguments selected by the
claim's table applied to the trimmed, lowercased preset, followed by
`--read-only` iff `read_only` is configured, followed by the user extra
arguments split on whitespace, in that order. -/
theorem C9_mounter_cmd (cfg : Config) :
    mounterCmd cfg
      = ["mount", cfg.rcloneRemote, cfg.mountpoint, "--allow-other",
         "--vfs-cache-mode=writes", "--dir-cache-time=12h"]
        ++ presetArgsClaimLiteral (goToLower (goTrimSpace cfg.preset))
        ++ (if cfg.readOnly then ["--read-only"] else [])
        ++ (if goTrimSpace cfg.rcloneExtraArgs ≠ "" then parseArgs cfg.rcloneExtraArgs else []) := by
  have hpreset : buildPresetArgs cfg = presetArgsClaimLiteral (goToLower (goTrimSpace cfg.preset)) := by
    rw [buildPresetArgs, presetArgsClaimLiteral]
  rw [mounterCmd, hpreset]

/-! ## Helper image resolution (`helperImageRef`; claim C10) -/

/-- Split before/after the first occurrence of `c`. -/
def breakOnChar (c : Char) : List Char → Option (List Char × List Char)
  | [] => none
  | x :: rest =>
    if x = c then some ([], rest)
    else
      match breakOnChar c rest with
      | none => none
      | some (a, b) => some (x :: a, b)

/-- The path field of one `/proc/self/cgroup` line: the part after the
second `:` when the line has at least two colons (`strings.SplitN(ln,":",3)`),
otherwise the whole line. -/
def cgroupPath (ln : List Char) : List Char :=
  match breakOnChar ':' ln with
  | none => ln
  | some (_, r1) =>
    match breakOnChar ':' r1 with
    | none => ln
    | some (_, r2) => r2

/-- The suffix after the last `/`, if any (`strings.LastIndex(path, "/")`). -/
def afterLastSlash : List Char → Option (List Char)
  | [] => none
  | c :: rest =>
    match afterLastSlash rest with
    | some r => some r
    | none => if c = '/' then some rest else none

/-- Embedding of `strings.TrimSuffix`. -/
def trimSuffixCh (suf l : List Char) : List Char :=
  if suf.reverse.isPrefixOf l.reverse then (l.reverse.drop suf.length).reverse else l

/-- Embedding of `strings.TrimPrefix`. -/
def trimPrefixCh (pre l : List Char) : List Char :=
  if pre.isPrefixOf l then l.drop pre.length else l

/-- The container-id candidate extracted from one cgroup line: trim spaces,
strip a `.scope` suffix and a `docker-` prefix, require length ≥ 12. -/
def cgroupCandidate (ln : List Char) : Option (List Char) :=
  if ln = [] then none
  else
    match afterLastSlash (cgroupPath ln) with
    | none => none
    | some s0 =>
      let id := trimPrefixCh ("docker-".data) (trimSuffixCh (".scope".data) (trimBy goIsSpace s0))
      if 12 ≤ id.length then some id else none

/-- The image reported by inspecting a container: `none` models an inspect
error or a nil config; a non-blank `Config.Image` is returned trimmed. -/
def imageFromInspect (ins : String → Option String) (id : String) : Option String :=
  match ins id with
  | none => none
  | some img => if goTrimSpace img ≠ "" then some (goTrimSpace img) else none

/-- Self-discovery strategy 1: inspect the container named by the
(non-blank) OS hostname. -/
def strat1 (ins : String → Option String) (hostname : Option String) : Option String :=
  match hostname with
  | none => none
  | some hn => if goTrimSpace hn ≠ "" then imageFromInspect ins hn else none

/-- The first cgroup line yielding a candidate id whose inspection returns a
usable image. -/
def firstUsable (ins : String → Option String) : List (List Char) → Option String
  | [] => none
  | ln :: rest =>
    match cgroupCandidate ln with
    | none => firstUsable ins rest
    | some id =>
      match imageFromInspect ins (String.mk id) with
      | none => firstUsable ins rest
      | some img => some img

/-- Self-discovery strategy 2: parse `/proc/self/cgroup` (whose content is
`none` when unreadable) line by line. -/
def strat2 (ins : String → Option String) (cgroupContent : Option String) : Option String :=
  match cgroupContent with
  | none => none
  | some content => firstUsable ins (splitOnP (fun c => c = '\n') content.data)

/-- Embedding of `helperImageRef`: configured helper image first (when
non-blank), then the cached self image, then the two discovery strategies,
then the hard-coded public fallback image. -/
def helperImageRef (cfg : Config) (cache : String) (ins : String → Option String)
    (hostname : Option String) (cgroupContent : Option String) : String :=
  if goTrimSpace cfg.helperImage ≠ "" then cfg.helperImage
  else if cache ≠ "" then cache
  else
    match strat1 ins hostname with
    | some img => img
    | none =>
      match strat2 ins cgroupContent with
      | some img => img
      | none => "ghcr.io/swarmnative/volume-s3:latest"

/-- An inspect oracle on which every inspection fails. -/
def insNone : String → Option String := fun _ => none

example : cgroupCandidate ("0::/docker/0123456789abcdef.scope".data)
    = some ("0123456789abcdef".data) := by decide
example : cgroupCandidate ("0::/short".data) = none := by decide

/-- C10: `helperImageRef` returns the configured `HelperImage` whenever it is
non-blank after trimming; when it is blank, no self image is cached, and both
runtime self-discovery strategies (inspect-by-hostname and cgroup parsing)
fail, it returns the hard-coded public reference
`ghcr.io/swarmnative/volume-s3:latest`, which appears nowhere in the
configuration. -/
theorem C10_helper_image_ref (cfg : Config) (cache : String)
    (ins : String → Option String) (hostname cgroupContent : Option String) :
    (goTrimSpace cfg.helperImage ≠ "" →
      helperImageRef cfg cache ins hostname cgroupContent = cfg.helperImage) ∧
    (goTrimSpace cfg.helperImage = "" → cache = "" →
      strat1 ins hostname = none → strat2 ins cgroupContent = none →
      helperImageRef cfg cache ins hostname cgroupContent
        = "ghcr.io/swarmnative/volume-s3:latest") := by
  constructor
  · intro h
    simp [helperImageRef, h]
  · intro h1 h2 h3 h4
    simp [helperImageRef, h1, h2, h3, h4]

/-- C10 witness: with no configured helper image, no cache, and an inspect
oracle that always fails, the fallback image is returned. -/
theorem C10_helper_image_ref_witness :
    goTrimSpace cfgBase.helperImage = "" ∧
    strat1 insNone (some "abc123def456") = none ∧
    strat2 insNone (some "0::/docker/0123456789abcdef") = none ∧
    helperImageRef cfgBase "" insNone (some "abc123def456") (some "0::/docker/0123456789abcdef")
      = "ghcr.io/swarmnative/volume-s3:latest" :=
  ⟨by decide, by decide, by decide,
    (C10_helper_image_ref cfgBase "" insNone (some "abc123def456")
        (some "0::/docker/0123456789abcdef")).2 (by decide) rfl (by decide) (by decide)⟩

/-! ## Label parsing (`parseLabels`; claims C3 and C4)

The Go function iterates over a `map[string]string`; the embedding folds
over an association list, with the list order standing for the (arbitrary)
map iteration order.  Log calls are recorded as events. -/

inductive LogLevel
  | warn
  | error
deriving DecidableEq

inductive LogKind
  | unknownKey
  | otherPrefix
  | conflictPrefixed
  | prefixedOverrides
deriving DecidableEq

structure LogEvent where
  level : LogLevel
  kind : LogKind
deriving DecidableEq

/-- `slog.Error` under `LabelStrict`, `slog.Warn` otherwise. -/
def strictLevel (strict : Bool) : LogLevel :=
  if strict then LogLevel.error else LogLevel.warn

/-- The recognized label bases (the `allowed` set in `parseLabels`). -/
def allowedBase (b : String) : Bool :=
  b = "s3.enabled" ∨ b = "s3.bucket" ∨ b = "s3.prefix" ∨ b = "s3.class" ∨
  b = "s3.reclaim" ∨ b = "s3.access" ∨ b = "s3.args"

/-- Split a label key at its first `/` (`strings.Index(k, "/")`): a key with
no slash — or with a leading slash — has an empty prefix part and counts as
unprefixed, exactly as in the source. -/
def splitKey (k : String) : String × String :=
  match breakOnChar '/' k.data with
  | none => ("", k)
  | some (a, b) => (String.mk a, String.mk b)

/-- The `values` map of `parseLabels` (base ↦ value and prefixed flag)
together with the logged events. -/
structure ParseState where
  values : String → Option (String × Bool)
  logs : List LogEvent

def initParseState : ParseState :=
  { values := fun _ => none, logs := [] }

/-- Assignment into the `values` map. -/
def setVal (f : String → Option (String × Bool)) (b : String) (v : String × Bool) :
    String → Option (String × Bool) :=
  fun x => if x = b then some v else f x

/-- One iteration of the `parseLabels` loop on the pair `kv`. -/
def parseStep (cfg : Config) (st : ParseState) (kv : String × String) : ParseState :=
  let pfx := (splitKey kv.1).1
  let base := (splitKey kv.1).2
  let spc := goTrimSpace cfg.labelPrefix
  if allowedBase base = false then
    { st with logs := st.logs ++ [⟨strictLevel cfg.labelStrict, LogKind.unknownKey⟩] }
  else if spc ≠ "" ∧ pfx ≠ "" ∧ pfx ≠ spc then
    { st with logs := st.logs ++ [⟨LogLevel.warn, LogKind.otherPrefix⟩] }
  else
    match st.values base with
    | some old =>
      if old.2 = true ∧ pfx ≠ "" then
        { st with logs := st.logs ++ [⟨strictLevel cfg.labelStrict, LogKind.conflictPrefixed⟩] }
      else if old.2 = false ∧ pfx ≠ "" then
        { values := setVal st.values base (kv.2, true),
          logs := st.logs ++ [⟨LogLevel.warn, LogKind.prefixedOverrides⟩] }
      else st
    | none => { st with values := setVal st.values base (kv.2, decide (pfx ≠ "")) }

/-- Embedding of `parseLabels` over a label list. -/
def parseLabelsList (cfg : Config) (labels : List (String × String)) : ParseState :=
  labels.foldl (parseStep cfg) initParseState

/-- The resolved output map (`out` in the source): base ↦ value. -/
def resolveLabels (cfg : Config) (labels : List (String × String)) (b : String) :
    Option String :=
  ((parseLabelsList cfg labels).values b).map Prod.fst

/-- Configuration with `label_prefix="org"` (as in the repository's unit
test `TestParseLabels_WithPrefix`). -/
def cfgOrgPrefix : Config := { cfgBase with labelPrefix := "org" }

-- The repository's own unit tests, replayed against the embedding.
example : resolveLabels cfgBase [("s3.enabled", "true"), ("s3.bucket", "b"), ("foo", "bar")]
    "s3.enabled" = some "true" := by decide
example : resolveLabels cfgBase [("s3.enabled", "true"), ("s3.bucket", "b"), ("foo", "bar")]
    "foo" = none := by decide
example : resolveLabels cfgOrgPrefix [("org/s3.enabled", "true"), ("s3.enabled", "false")]
    "s3.enabled" = some "true" := by decide
example : resolveLabels cfgOrgPrefix [("s3.enabled", "false"), ("org/s3.enabled", "true")]
    "s3.enabled" = some "true" := by decide

theorem parseStep_values_other (cfg : Config) (st : ParseState) (kv : String × String)
    (b : String) (hb : (splitKey kv.1).2 ≠ b) :
    (parseStep cfg st kv).values b = st.values b := by
  simp only [parseStep]
  split
  · rfl
  · split
    · rfl
    · split
      · split
        · rfl
        · split
          · simp only [setVal]
            rw [if_neg (fun h => hb h.symm)]
          · rfl
      · simp only [setVal]
        rw [if_neg (fun h => hb h.symm)]


theorem parseStep_values_locked (cfg : Config) (st : ParseState) (kv : String × String)
    (b v : String) (hlock : st.values b = some (v, true)) :
    (parseStep cfg st kv).values b = some (v, true) := by
  by_cases hb : (splitKey kv.1).2 = b
  · simp only [parseStep]
    simp [hb, hlock]
    split
    · exact hlock
    · split
      · exact hlock
      · split
        · exact hlock
        · exact hlock
  · rw [parseStep_values_other cfg st kv b hb]
    exact hlock

theorem parse_fold_locked (cfg : Config) (L : List (String × String)) (b v : String) :
    ∀ st : ParseState, st.values b = some (v, true) →
      (L.foldl (parseStep cfg) st).values b = some (v, true) := by
  induction L with
  | nil => intro st h; exact h
  | cons kv rest ih =>
    intro st h
    exact ih (parseStep cfg st kv) (parseStep_values_locked cfg st kv b v h)

theorem allowedBase_splitKey (b : String) (h : allowedBase b = true) :
    splitKey b = ("", b) := by
  have h2 : b = "s3.enabled" ∨ b = "s3.bucket" ∨ b = "s3.prefix" ∨ b = "s3.class" ∨
      b = "s3.reclaim" ∨ b = "s3.access" ∨ b = "s3.args" := by
    simpa [allowedBase] using h
  rcases h2 with h | h | h | h | h | h | h <;> subst h <;> decide

theorem parseStep_write_prefixed (cfg : Config) (st : ParseState) (kv : String × String)
    (b : String)
    (hb : (splitKey kv.1).2 = b) (hallow : allowedBase b = true)
    (hpfx : (splitKey kv.1).1 ≠ "")
    (hacc : goTrimSpace cfg.labelPrefix = "" ∨ (splitKey kv.1).1 = goTrimSpace cfg.labelPrefix)
    (hst : st.values b = none ∨ ∃ x, st.values b = some (x, false)) :
    (parseStep cfg st kv).values b = some (kv.2, true) := by
  have hCond : ¬(¬goTrimSpace cfg.labelPrefix = "" ∧
      ¬(splitKey kv.1).1 = goTrimSpace cfg.labelPrefix) := by
    rcases hacc with ha | ha
    · exact fun hx => hx.1 ha
    · exact fun hx => hx.2 ha
  have hd : (decide (¬(splitKey kv.1).1 = "")) = true := by simp [hpfx]
  simp only [parseStep]
  rcases hst with h | ⟨x, h⟩
  · simp [hb, hallow, h, setVal, hpfx, hCond, hd]
  · simp [hb, hallow, h, setVal, hpfx, hCond, hd]

theorem parseStep_unprefixed_keep (cfg : Config) (st : ParseState) (kv : String × String)
    (b : String)
    (hb : (splitKey kv.1).2 = b) (hallow : allowedBase b = true)
    (hpfx : (splitKey kv.1).1 = "")
    (hst : st.values b = none ∨ ∃ x, st.values b = some (x, false)) :
    ∃ x, (parseStep cfg st kv).values b = some (x, false) := by
  simp only [parseStep]
  rcases hst with h | ⟨x, h⟩
  · exact ⟨kv.2, by simp [hb, hallow, hpfx, h, setVal]⟩
  · exact ⟨x, by simp [hb, hallow, hpfx, h, setVal]⟩

theorem parse_fold_prefixed_wins (cfg : Config) (base kp vy : String)
    (hallow : allowedBase base = true)
    (hkpb : (splitKey kp).2 = base) (hkpp : (splitKey kp).1 ≠ "")
    (hacc : goTrimSpace cfg.labelPrefix = "" ∨ (splitKey kp).1 = goTrimSpace cfg.labelPrefix) :
    ∀ (L : List (String × String)) (st : ParseState),
      (kp, vy) ∈ L →
      (L.map Prod.fst).Nodup →
      (∀ q ∈ L, (splitKey q.1).2 = base → q.1 = base ∨ q.1 = kp) →
      (st.values base = none ∨ ∃ x, st.values base = some (x, false)) →
      (L.foldl (parseStep cfg) st).values base = some (vy, true) := by
  intro L
  induction L with
  | nil =>
    intro st hmem
    simp at hmem
  | cons kv rest ih =>
    intro st hmem hnodup honly hst
    rw [List.foldl_cons]
    have hnodup2 : kv.1 ∉ rest.map Prod.fst ∧ (rest.map Prod.fst).Nodup := by
      rw [List.map_cons, List.nodup_cons] at hnodup
      exact hnodup
    by_cases hk : kv.1 = kp
    · have hv : kv.2 = vy := by
        rcases List.mem_cons.mp hmem with h | h
        · rw [← h]
        · exact absurd (hk ▸ List.mem_map_of_mem Prod.fst h) hnodup2.1
      have hstep := parseStep_write_prefixed cfg st kv base
        (by rw [hk]; exact hkpb) hallow (by rw [hk]; exact hkpp) (by rw [hk]; exact hacc) hst
      exact parse_fold_locked cfg rest base vy (parseStep cfg st kv) (by rw [hstep, hv])
    · have hmem2 : (kp, vy) ∈ rest := by
        rcases List.mem_cons.mp hmem with h | h
        · exact absurd (congrArg Prod.fst h).symm hk
        · exact h
      have honly2 : ∀ q ∈ rest, (splitKey q.1).2 = base → q.1 = base ∨ q.1 = kp :=
        fun q hq => honly q (List.mem_cons_of_mem kv hq)
      refine ih (parseStep cfg st kv) hmem2 hnodup2.2 honly2 ?_
      by_cases hbq : (splitKey kv.1).2 = base
      · have hkb : kv.1 = base := by
          rcases honly kv (List.mem_cons_self kv rest) hbq with h | h
          · exact h
          · exact absurd h hk
        have hpfx0 : (splitKey kv.1).1 = "" := by
          rw [hkb, allowedBase_splitKey base hallow]
        rcases parseStep_unprefixed_keep cfg st kv base hbq hallow hpfx0 hst with ⟨x, hx⟩
        exact Or.inr ⟨x, hx⟩
      · rw [parseStep_values_other cfg st kv base hbq]
        exact hst

/-- Two orderings of one label map with two accepted prefixed keys. -/
def labelsOrderA : List (String × String) :=
  [("s3.enabled", "x"), ("a/s3.enabled", "y"), ("b/s3.enabled", "z")]

/-- The same label map in a different iteration order. -/
def labelsOrderB : List (String × String) :=
  [("s3.enabled", "x"), ("b/s3.enabled", "z"), ("a/s3.enabled", "y")]

/-- C3 counterexample: with `label_prefix=""` a map holding the unprefixed
key and two accepted prefixed keys for the same base resolves to whichever
prefixed key the iteration visits first, so the claimed result `Y` and the
claimed order-independence both fail. -/
theorem C3_label_priority_counterexample :
    labelsOrderA.Perm labelsOrderB ∧
    resolveLabels cfgBase labelsOrderA "s3.enabled" = some "y" ∧
    resolveLabels cfgBase labelsOrderB "s3.enabled" = some "z" := by
  refine ⟨?_, ?_, ?_⟩ <;> decide

/-- C3 (amended): in a label map containing the unprefixed key `base=X` and
an accepted prefixed key `kp=Y` for the same recognized base, and no other
key for that base, `parseLabels` resolves the base to `Y`; the statement
quantifies over every iteration order of the map, so the result is
order-independent. -/
theorem C3_label_priority (cfg : Config) (L : List (String × String))
    (base kp vx vy : String)
    (hallow : allowedBase base = true)
    (hmemU : (base, vx) ∈ L)
    (hmemP : (kp, vy) ∈ L)
    (hkpb : (splitKey kp).2 = base)
    (hkpp : (splitKey kp).1 ≠ "")
    (hacc : goTrimSpace cfg.labelPrefix = "" ∨ (splitKey kp).1 = goTrimSpace cfg.labelPrefix)
    (hnodup : (L.map Prod.fst).Nodup)
    (honly : ∀ q ∈ L, (splitKey q.1).2 = base → q.1 = base ∨ q.1 = kp) :
    resolveLabels cfg L base = some vy := by
  have h := parse_fold_prefixed_wins cfg base kp vy hallow hkpb hkpp hacc L
    initParseState hmemP hnodup honly (Or.inl rfl)
  simp [resolveLabels, parseLabelsList, h]

/-- C3 witness: the repository's prefixed-override unit test, in both
iteration orders. -/
theorem C3_label_priority_witness :
    resolveLabels cfgOrgPrefix [("org/s3.enabled", "true"), ("s3.enabled", "false")]
      "s3.enabled" = some "true" ∧
    resolveLabels cfgOrgPrefix [("s3.enabled", "false"), ("org/s3.enabled", "true")]
      "s3.enabled" = some "true" :=
  ⟨C3_label_priority cfgOrgPrefix _ "s3.enabled" "org/s3.enabled" "false" "true"
      (by decide) (by decide) (by decide) (by decide) (by decide)
      (Or.inr (by decide)) (by decide) (by decide),
    C3_label_priority cfgOrgPrefix _ "s3.enabled" "org/s3.enabled" "false" "true"
      (by decide) (by decide) (by decide) (by decide) (by decide)
      (Or.inr (by decide)) (by decide) (by decide)⟩

theorem parseStep_conflict (cfg : Config) (st : ParseState) (kv : String × String)
    (b v : String)
    (hb : (splitKey kv.1).2 = b) (hallow : allowedBase b = true)
    (hpfx : (splitKey kv.1).1 ≠ "")
    (hacc : goTrimSpace cfg.labelPrefix = "" ∨ (splitKey kv.1).1 = goTrimSpace cfg.labelPrefix)
    (hlock : st.values b = some (v, true)) :
    parseStep cfg st kv
      = { values := st.values,
          logs := st.logs ++ [⟨strictLevel cfg.labelStrict, LogKind.conflictPrefixed⟩] } := by
  have hCond : ¬(¬goTrimSpace cfg.labelPrefix = "" ∧
      ¬(splitKey kv.1).1 = goTrimSpace cfg.labelPrefix) := by
    rcases hacc with ha | ha
    · exact fun hx => hx.1 ha
    · exact fun hx => hx.2 ha
  simp only [parseStep]
  simp [hb, hallow, hlock, hpfx, hCond]

/-- C4 counterexample: two accepted prefixed labels for the same base (under
`label_prefix=""`, `label_strict=false`) produce a conflict, yet the resolved
map retains the first value `"1"` — the claim's "the resolved map drops both
conflicting values, so neither value is retained" is false. -/
theorem C4_label_conflict_counterexample :
    resolveLabels cfgBase [("a/s3.enabled", "1"), ("b/s3.enabled", "2")] "s3.enabled"
      = some "1" ∧
    (parseLabelsList cfgBase [("a/s3.enabled", "1"), ("b/s3.enabled", "2")]).logs
      = [⟨LogLevel.warn, LogKind.conflictPrefixed⟩] := by
  refine ⟨?_, ?_⟩ <;> decide

/-- C4 (amended): for two accepted prefixed labels for the same recognized
base, `parseLabels` logs the conflict as an error iff `label_strict=true`
and as a warning iff `label_strict=false`, drops the second conflicting
value, and retains the first in the resolved map. -/
theorem C4_label_conflict (cfg : Config) (k1 v1 k2 v2 base : String)
    (hk12 : k1 ≠ k2)
    (h1b : (splitKey k1).2 = base) (h1p : (splitKey k1).1 ≠ "")
    (h1acc : goTrimSpace cfg.labelPrefix = "" ∨ (splitKey k1).1 = goTrimSpace cfg.labelPrefix)
    (h2b : (splitKey k2).2 = base) (h2p : (splitKey k2).1 ≠ "")
    (h2acc : goTrimSpace cfg.labelPrefix = "" ∨ (splitKey k2).1 = goTrimSpace cfg.labelPrefix)
    (hallow : allowedBase base = true) :
    resolveLabels cfg [(k1, v1), (k2, v2)] base = some v1 ∧
    (parseLabelsList cfg [(k1, v1), (k2, v2)]).logs
      = [⟨strictLevel cfg.labelStrict, LogKind.conflictPrefixed⟩] := by
  have h1 : (parseStep cfg initParseState (k1, v1)).values base = some (v1, true) :=
    parseStep_write_prefixed cfg initParseState (k1, v1) base h1b hallow h1p h1acc
      (Or.inl rfl)
  have h1logs : (parseStep cfg initParseState (k1, v1)).logs = [] := by
    have hCond : ¬(¬goTrimSpace cfg.labelPrefix = "" ∧
        ¬(splitKey k1).1 = goTrimSpace cfg.labelPrefix) := by
      rcases h1acc with ha | ha
      · exact fun hx => hx.1 ha
      · exact fun hx => hx.2 ha
    simp only [parseStep]
    simp [h1b, hallow, hCond, h1p, initParseState]
  have h2 := parseStep_conflict cfg (parseStep cfg initParseState (k1, v1)) (k2, v2)
    base v1 h2b hallow h2p h2acc h1
  have hfold : parseLabelsList cfg [(k1, v1), (k2, v2)]
      = parseStep cfg (parseStep cfg initParseState (k1, v1)) (k2, v2) := rfl
  constructor
  · rw [resolveLabels, hfold, h2]
    simp [h1]
  · rw [hfold, h2]
    simp [h1logs]

/-- Strict-mode configuration for the C4 witness. -/
def cfgStrict : Config := { cfgBase with labelStrict := true }

/-- C4 witness: the amended claim at a concrete strict configuration —
the conflict is logged as an error and the first value is retained. -/
theorem C4_label_conflict_witness :
    resolveLabels cfgStrict [("a/s3.enabled", "1"), ("b/s3.enabled", "2")] "s3.enabled"
      = some "1" ∧
    (parseLabelsList cfgStrict [("a/s3.enabled", "1"), ("b/s3.enabled", "2")]).logs
      = [⟨LogLevel.error, LogKind.conflictPrefixed⟩] :=
  C4_label_conflict cfgStrict "a/s3.enabled" "1" "b/s3.enabled" "2" "s3.enabled"
    (by decide) (by decide) (by decide) (Or.inl (by decide))
    (by decide) (by decide) (Or.inl (by decide)) (by decide)

/-! ## Reconcile pass model (claims C2 and C6)

The effectful reconcile loop is modelled against a static `World`: the
responses the container runtime and the filesystem give during one pass.
`Metrics` mirrors the controller's counters and gauges.  `reconcileStep`
follows the source order of `reconcile` plus the bookkeeping done by `Run`
(`reconcile_errors` on error, `last_reconcile_ms` afterwards). -/

structure Metrics where
  reconcileTotal : Nat
  reconcileErrors : Nat
  healAttemptsTotal : Nat
  healSuccessTotal : Nat
  orphanCleanupTotal : Nat
  mounterCreatedTotal : Nat
  lastHealSuccessUnix : Nat
  lastReconcileMs : Nat
  lastMounterRunning : Bool
  lastMountWritable : Bool
deriving DecidableEq

def metricsZero : Metrics :=
  { reconcileTotal := 0, reconcileErrors := 0, healAttemptsTotal := 0, healSuccessTotal := 0,
    orphanCleanupTotal := 0, mounterCreatedTotal := 0, lastHealSuccessUnix := 0,
    lastReconcileMs := 0, lastMounterRunning := false, lastMountWritable := false }

structure World where
  mounterExists : Bool
  mounterRunning : Bool
  imageDrift : Bool
  startOk : Bool
  createOk : Bool
  mountOk : Bool
  helperOk : Bool
  mountOkAfterHeal : Bool
  orphans : Nat
deriving DecidableEq

/-- `ensureMounter`: existing running container (without image drift) or a
successful start is a no-op; otherwise the create path runs,
incrementing `mounter_created_total` on success and erroring on failure.
The second component is the returned error. -/
def ensureMounterStep (w : World) (m : Metrics) : Metrics × Bool :=
  if w.mounterExists ∧ ¬w.imageDrift ∧ w.mounterRunning then (m, false)
  else if w.mounterExists ∧ ¬w.imageDrift ∧ w.startOk then (m, false)
  else if w.createOk then
    ({ m with mounterCreatedTotal := m.mounterCreatedTotal + 1 }, false)
  else (m, true)

/-- Whether `ensureMounter` errors (independent of the metrics). -/
def ensureMounterErr (w : World) : Bool :=
  if w.mounterExists ∧ ¬w.imageDrift ∧ w.mounterRunning then false
  else if w.mounterExists ∧ ¬w.imageDrift ∧ w.startOk then false
  else !w.createOk

/-- `checkAndHealMount` returns an error iff the initial `testRW` fails and
the helper path (image ensure / container create) fails too; when the first
`testRW` succeeds it returns nil without healing anything. -/
def checkAndHealErr (w : World) : Bool :=
  if w.mountOk then false else !w.helperOk

/-- Whether `testRW` succeeds when re-run after `checkAndHealMount`. -/
def mountOkAfterHealStep (w : World) : Bool :=
  if w.mountOk then true else w.mountOkAfterHeal

/-- The heal accounting block of `reconcile`: when `checkAndHealMount`
returns nil — including the no-op case where the first `testRW` succeeded —
increment `heal_attempts_total`, and when the re-run `testRW` succeeds,
increment `heal_success_total` and stamp `last_heal_success_unix`. -/
def healStep (w : World) (now : Nat) (m : Metrics) : Metrics :=
  if checkAndHealErr w then m
  else
    let m1 := { m with healAttemptsTotal := m.healAttemptsTotal + 1 }
    if mountOkAfterHealStep w then
      { m1 with
        healSuccessTotal := m1.healSuccessTotal + 1
        lastHealSuccessUnix := now }
    else m1

/-- `logStatus`: refresh the two status gauges. -/
def logStatusStep (w : World) (m : Metrics) : Metrics :=
  { m with
    lastMounterRunning := w.mounterRunning
    lastMountWritable := mountOkAfterHealStep w }

/-- `cleanupOrphanedMounters`: every listed managed non-running container is
counted (removal is best-effort; the counter increments regardless). -/
def orphanStep (w : World) (m : Metrics) : Metrics :=
  if 0 < w.orphans then { m with orphanCleanupTotal := m.orphanCleanupTotal + w.orphans }
  else m

/-- One iteration of `Run`: `reconcile_total`, rshared/image refresh (no
metrics), `ensureMounter` (error aborts the pass and bumps
`reconcile_errors`), the heal block, claim provisioning (no metrics),
`logStatus`, orphan cleanup, then the duration gauge. -/
def reconcileStep (w : World) (now dur : Nat) (m : Metrics) : Metrics :=
  let m0 := { m with reconcileTotal := m.reconcileTotal + 1 }
  let em := ensureMounterStep w m0
  if em.2 then
    { em.1 with
      reconcileErrors := em.1.reconcileErrors + 1
      lastReconcileMs := dur }
  else
    let m2 := healStep w now em.1
    let m3 := logStatusStep w m2
    let m4 := orphanStep w m3
    { m4 with lastReconcileMs := dur }

theorem ensureMounterStep_snd (w : World) (m : Metrics) :
    (ensureMounterStep w m).2 = ensureMounterErr w := by
  unfold ensureMounterStep ensureMounterErr
  split
  · rfl
  · split
    · rfl
    · split <;> simp [*]

theorem ensureMounterStep_fst (w : World) (m : Metrics) :
    (ensureMounterStep w m).1 = m ∨
    (ensureMounterStep w m).1 = { m with mounterCreatedTotal := m.mounterCreatedTotal + 1 } := by
  unfold ensureMounterStep
  split
  · exact Or.inl rfl
  · split
    · exact Or.inl rfl
    · split
      · exact Or.inr rfl
      · exact Or.inl rfl

theorem ensureMounterStep_fst_heal (w : World) (m : Metrics) :
    (ensureMounterStep w m).1.healAttemptsTotal = m.healAttemptsTotal := by
  rcases ensureMounterStep_fst w m with h | h <;> rw [h]

/-- A runtime state in which the mounter is running with the desired image,
the mount is writable, and no orphans are listed. -/
def worldHealthy : World :=
  { mounterExists := true, mounterRunning := true, imageDrift := false, startOk := true,
    createOk := true, mountOk := true, helperOk := true, mountOkAfterHeal := true,
    orphans := 0 }

/-- C2 counterexample: in a pass whose first `testRW` succeeds (heal is a
no-op), `heal_attempts_total` (and `heal_success_total`) are still
incremented, contrary to the claim that such a pass leaves the counter
unchanged. -/
theorem C2_heal_attempts_counterexample :
    (reconcileStep worldHealthy 100 5 metricsZero).healAttemptsTotal = 1 ∧
    (reconcileStep worldHealthy 100 5 metricsZero).healSuccessTotal = 1 := by
  refine ⟨?_, ?_⟩ <;> decide

/-- C2 (amended): in every reconcile pass, `heal_attempts_total` is
incremented exactly when `checkAndHealMount` returned without error — which
includes the no-op case where the initial `testRW` succeeded — and is left
unchanged both when `ensureMounter` aborts the pass and when the heal path
itself errors. -/
theorem C2_heal_attempts (w : World) (now dur : Nat) (m : Metrics) :
    (reconcileStep w now dur m).healAttemptsTotal
      = m.healAttemptsTotal
        + (if ensureMounterErr w = false ∧ checkAndHealErr w = false then 1 else 0) := by
  simp only [reconcileStep]
  rw [ensureMounterStep_snd]
  by_cases he : ensureMounterErr w = true
  · simp only [he, if_pos]
    simp [he, ensureMounterStep_fst_heal]
  · have he2 : ensureMounterErr w = false := by simpa using he
    simp only [he2]
    unfold healStep logStatusStep orphanStep
    by_cases hc : checkAndHealErr w = true
    · simp [hc, ensureMounterStep_fst_heal]
      split <;> simp [ensureMounterStep_fst_heal]
    · have hc2 : checkAndHealErr w = false := by simpa using hc
      simp [hc2, ensureMounterStep_fst_heal]
      split <;> split <;> simp [ensureMounterStep_fst_heal]

theorem reconcileStep_healthy (w : World) (now dur : Nat) (m : Metrics)
    (hex : w.mounterExists = true) (hrun : w.mounterRunning = true)
    (hdrift : w.imageDrift = false) (hmount : w.mountOk = true) (horph : w.orphans = 0) :
    reconcileStep w now dur m =
      { m with
        reconcileTotal := m.reconcileTotal + 1
        healAttemptsTotal := m.healAttemptsTotal + 1
        healSuccessTotal := m.healSuccessTotal + 1
        lastHealSuccessUnix := now
        lastMounterRunning := true
        lastMountWritable := true
        lastReconcileMs := dur } := by
  simp only [reconcileStep]
  unfold ensureMounterStep healStep checkAndHealErr mountOkAfterHealStep logStatusStep orphanStep
  simp [hex, hrun, hdrift, hmount, horph, mountOkAfterHealStep]

/-- C6 counterexample: two reconcile passes against the same healthy runtime
state (mounter running, mount writable, no orphans): the second pass changes
`heal_attempts_total` and `heal_success_total`, which the claim lists as
unchanged. -/
theorem C6_idempotency_counterexample :
    (reconcileStep worldHealthy 101 5 (reconcileStep worldHealthy 100 5 metricsZero)).healAttemptsTotal
        = 2 ∧
    (reconcileStep worldHealthy 100 5 metricsZero).healAttemptsTotal = 1 ∧
    (reconcileStep worldHealthy 101 5 (reconcileStep worldHealthy 100 5 metricsZero)).healAttemptsTotal
        ≠ (reconcileStep worldHealthy 100 5 metricsZero).healAttemptsTotal := by
  refine ⟨?_, ?_, ?_⟩ <;> decide

/-- C6 (amended): running the reconcile twice against an unchanged healthy
runtime state (same containers with the mounter running and no image drift,
mount writable, no orphans) leaves `reconcile_errors`,
`mounter_created_total`, `orphan_cleanup_total` and the status gauges
unchanged, while `reconcile_total`, `heal_attempts_total` and
`heal_success_total` each advance by one and the time-valued gauges take the
second pass's timestamps. -/
theorem C6_idempotency (w : World) (m : Metrics) (now1 dur1 now2 dur2 : Nat)
    (hex : w.mounterExists = true) (hrun : w.mounterRunning = true)
    (hdrift : w.imageDrift = false) (hmount : w.mountOk = true) (horph : w.orphans = 0) :
    (reconcileStep w now2 dur2 (reconcileStep w now1 dur1 m)).reconcileErrors
        = (reconcileStep w now1 dur1 m).reconcileErrors ∧
    (reconcileStep w now2 dur2 (reconcileStep w now1 dur1 m)).mounterCreatedTotal
        = (reconcileStep w now1 dur1 m).mounterCreatedTotal ∧
    (reconcileStep w now2 dur2 (reconcileStep w now1 dur1 m)).orphanCleanupTotal
        = (reconcileStep w now1 dur1 m).orphanCleanupTotal ∧
    (reconcileStep w now2 dur2 (reconcileStep w now1 dur1 m)).lastMounterRunning
        = (reconcileStep w now1 dur1 m).lastMounterRunning ∧
    (reconcileStep w now2 dur2 (reconcileStep w now1 dur1 m)).lastMountWritable
        = (reconcileStep w now1 dur1 m).lastMountWritable ∧
    (reconcileStep w now2 dur2 (reconcileStep w now1 dur1 m)).reconcileTotal
        = (reconcileStep w now1 dur1 m).reconcileTotal + 1 ∧
    (reconcileStep w now2 dur2 (reconcileStep w now1 dur1 m)).healAttemptsTotal
        = (reconcileStep w now1 dur1 m).healAttemptsTotal + 1 ∧
    (reconcileStep w now2 dur2 (reconcileStep w now1 dur1 m)).healSuccessTotal
        = (reconcileStep w now1 dur1 m).healSuccessTotal + 1 ∧
    (reconcileStep w now2 dur2 (reconcileStep w now1 dur1 m)).lastHealSuccessUnix = now2 ∧
    (reconcileStep w now2 dur2 (reconcileStep w now1 dur1 m)).lastReconcileMs = dur2 := by
  rw [reconcileStep_healthy w now2 dur2 _ hex hrun hdrift hmount horph,
    reconcileStep_healthy w now1 dur1 m hex hrun hdrift hmount horph]
  refine ⟨rfl, rfl, rfl, rfl, rfl, rfl, rfl, rfl, rfl, rfl⟩

/-- C6 witness: the amended idempotency statement at a concrete healthy
world and zeroed metrics. -/
theorem C6_idempotency_witness :
    (reconcileStep worldHealthy 200 7 (reconcileStep worldHealthy 100 5 metricsZero)).mounterCreatedTotal
        = (reconcileStep worldHealthy 100 5 metricsZero).mounterCreatedTotal ∧
    (reconcileStep worldHealthy 200 7 (reconcileStep worldHealthy 100 5 metricsZero)).healAttemptsTotal
        = (reconcileStep worldHealthy 100 5 metricsZero).healAttemptsTotal + 1 :=
  ⟨(C6_idempotency worldHealthy metricsZero 100 5 200 7 rfl rfl rfl rfl rfl).2.1,
    (C6_idempotency worldHealthy metricsZero 100 5 200 7 rfl rfl rfl rfl rfl).2.2.2.2.2.2.1⟩

/-! ## Mount probe model (`testRW`, `Ready`; claim C7) -/

/-- Filesystem operations issued by the probes. -/
inductive FsOp
  | mkdirAll (path : String) (mode : Nat)
  | writeFile (f : String)
  | remove (f : String)
deriving DecidableEq

/-- Outcomes the filesystem gives to the probe's operations. -/
structure FS where
  mkdirOk : Bool
  writeOk : Bool
  removeOk : Bool
deriving DecidableEq

/-- Embedding of `testRW`: `MkdirAll(path, 0755)`, then write the fixed
sentinel `.rw-test`, then remove it with the error ignored.  Returns the
operations issued and whether the probe succeeded.  No `ReadOnly` check
appears in the source function. -/
def testRW (path : String) (fs : FS) : List FsOp × Bool :=
  if ¬fs.mkdirOk then ([FsOp.mkdirAll path 493], false)
  else if ¬fs.writeOk then
    ([FsOp.mkdirAll path 493, FsOp.writeFile (goJoin path ".rw-test")], false)
  else
    ([FsOp.mkdirAll path 493, FsOp.writeFile (goJoin path ".rw-test"),
      FsOp.remove (goJoin path ".rw-test")], true)

/-- The probe used by `provisionClaims` (and by the reconcile heal path):
`testRW` on the configured mountpoint; the configuration's `ReadOnly` flag
is not consulted. -/
def provisionProbe (cfg : Config) (fs : FS) : List FsOp × Bool :=
  testRW cfg.mountpoint fs

/-- Embedding of the filesystem part of `Ready()`: ensure the mountpoint
directory exists and, only when not read-only, write and remove the
configured ready-file sentinel. -/
def readyCheck (cfg : Config) (fs : FS) : List FsOp × Bool :=
  if ¬fs.mkdirOk then ([FsOp.mkdirAll cfg.mountpoint 493], false)
  else if cfg.readOnly then ([FsOp.mkdirAll cfg.mountpoint 493], true)
  else if ¬fs.writeOk then
    ([FsOp.mkdirAll cfg.mountpoint 493, FsOp.writeFile (goJoin cfg.mountpoint cfg.readyFile)],
      false)
  else
    ([FsOp.mkdirAll cfg.mountpoint 493, FsOp.writeFile (goJoin cfg.mountpoint cfg.readyFile),
      FsOp.remove (goJoin cfg.mountpoint cfg.readyFile)], true)

/-- Read-only configuration. -/
def cfgReadOnly : Config := { cfgBase with readOnly := true }

/-- Mountpoint directory exists but writes fail (e.g. stuck FUSE mount). -/
def fsDirNoWrite : FS := { mkdirOk := true, writeOk := false, removeOk := true }

/-- Writes succeed but the unlink of the sentinel fails. -/
def fsNoRemove : FS := { mkdirOk := true, writeOk := true, removeOk := false }

/-- C7 counterexample: with `read_only=true` and an existing but unwritable
mountpoint, the probe used by the claim provisioner still writes the
sentinel and fails — the read-only bypass exists only in `Ready()`; and
with a failing unlink `testRW` still reports success, contradicting
"success iff both the write and the unlink succeed". -/
theorem C7_testRW_counterexample :
    ((provisionProbe cfgReadOnly fsDirNoWrite).2 = false ∧
      FsOp.writeFile "/mnt/s3/.rw-test" ∈ (provisionProbe cfgReadOnly fsDirNoWrite).1 ∧
      (readyCheck cfgReadOnly fsDirNoWrite).2 = true) ∧
    ((testRW "/mnt/s3" fsNoRemove).2 = true ∧ fsNoRemove.removeOk = false) := by
  refine ⟨⟨?_, ?_, ?_⟩, ?_, ?_⟩ <;> decide

/-- C7 (amended): `testRW` always creates the path with mode 0755 if absent
and always writes the sentinel (the read-only bypass exists only in
`Ready()`, not in the probe used by the reconcile loop and claim
provisioner, which is `testRW` on the mountpoint); it succeeds iff the
directory ensure and the sentinel write succeed, ignoring the unlink
outcome.  In `Ready()`, read-only mode skips the sentinel write and
existence suffices. -/
theorem C7_testRW_shape (path : String) (fs : FS) (cfg : Config) :
    ((testRW path fs).2 = true ↔ fs.mkdirOk = true ∧ fs.writeOk = true) ∧
    FsOp.mkdirAll path 493 ∈ (testRW path fs).1 ∧
    (fs.mkdirOk = true → FsOp.writeFile (goJoin path ".rw-test") ∈ (testRW path fs).1) ∧
    provisionProbe cfg fs = testRW cfg.mountpoint fs ∧
    (cfg.readOnly = true → fs.mkdirOk = true →
      (readyCheck cfg fs).2 = true ∧ ∀ f, FsOp.writeFile f ∉ (readyCheck cfg fs).1) := by
  refine ⟨?_, ?_, ?_, rfl, ?_⟩
  · rcases fs with ⟨mk, wr, rm⟩
    cases mk <;> cases wr <;> simp [testRW]
  · rcases fs with ⟨mk, wr, rm⟩
    cases mk <;> cases wr <;> simp [testRW]
  · intro hmk
    rcases fs with ⟨mk, wr, rm⟩
    cases mk <;> cases wr <;> simp_all [testRW]
  · intro hro hmk
    rcases fs with ⟨mk, wr, rm⟩
    cases mk <;> simp_all [readyCheck]

/-- C7 witness: the amended statement instantiated at the read-only
configuration and the unwritable filesystem. -/
theorem C7_testRW_shape_witness :
    ((testRW "/mnt/s3" fsDirNoWrite).2 = true ↔
      fsDirNoWrite.mkdirOk = true ∧ fsDirNoWrite.writeOk = true) ∧
    (readyCheck cfgReadOnly fsDirNoWrite).2 = true :=
  ⟨(C7_testRW_shape "/mnt/s3" fsDirNoWrite cfgReadOnly).1,
    ((C7_testRW_shape "/mnt/s3" fsDirNoWrite cfgReadOnly).2.2.2.2 rfl rfl).1⟩
